import Mathlib

/-!
Verification of the Mastermind game engine (`src/mastermind.cpp`).

The C++ class `Mastermind` is embedded as a Lean structure.  The two
scoring passes of `Mastermind::guess` are embedded as folds over
`List.finRange PEG_SLOTS` carrying the `black_matched` / `white_matched`
boolean masks exactly as the source does; the inner `for j` loop of the
white pass, with its `continue`/`break` structure, is the first index
satisfying the loop's conditions, i.e. a `List.find?`.  The 32-bit turn
counter `m_tries_allowed` is a `Nat` below `2 ^ 32`, and the `--` of the
source is addition of `2 ^ 32 - 1` modulo `2 ^ 32`.
-/

set_option maxHeartbeats 1000000
set_option maxRecDepth 100000

/-- PEG_SLOTS from mastermind.cpp: the number of pegs in the code. -/
abbrev PEG_SLOTS : Nat := 4

/-- MIN_PEG_COLORS from mastermind.cpp. -/
def MIN_PEG_COLORS : Nat := 2

/-- MAX_PEG_COLORS from mastermind.cpp. -/
def MAX_PEG_COLORS : Nat := MIN_PEG_COLORS + 8

/-- MIN_TRIES_ALLOWED from mastermind.cpp. -/
def MIN_TRIES_ALLOWED : Nat := 2

/-- Modulus of the C++ `uint32_t` type. -/
def U32 : Nat := 2 ^ 32

/-- State of the `Mastermind` class: the hidden pegs, the colour count and
the remaining-tries counter.  `m_tries_allowed` is a `uint32_t` in the
source and is modelled as a `Nat` kept below `U32`. -/
structure Mastermind where
  m_hidden_pegs : Fin PEG_SLOTS → Nat
  m_peg_colors : Nat
  m_tries_allowed : Nat

/-- Local state of `Mastermind::guess`: the two consumed-position masks and
the two key counters. -/
structure ScoreState where
  black_matched : Fin PEG_SLOTS → Bool
  white_matched : Fin PEG_SLOTS → Bool
  black_keys : Nat
  white_keys : Nat

/-- Initial state of `Mastermind::guess`: both masks all-false, both
counters zero. -/
def initScore : ScoreState :=
  { black_matched := fun _ => false
    white_matched := fun _ => false
    black_keys := 0
    white_keys := 0 }

/-- One iteration of the black-key loop of `Mastermind::guess`
(lines 60-65): if `pegs[i] == m_hidden_pegs[i]`, increment `black_keys`
and set `black_matched[i]`. -/
def blackStep (pegs hidden : Fin PEG_SLOTS → Nat) (st : ScoreState)
    (i : Fin PEG_SLOTS) : ScoreState :=
  if pegs i == hidden i then
    { st with
      black_keys := st.black_keys + 1
      black_matched := Function.update st.black_matched i true }
  else st

/-- One iteration of the outer white-key loop of `Mastermind::guess`
(lines 68-82): skip a black-matched guess position; otherwise scan the
hidden positions `j` in increasing order, skipping consumed ones, and at
the first `j` with `pegs[i] == m_hidden_pegs[j]` increment `white_keys`,
set `white_matched[j]` and break. -/
def whiteStep (pegs hidden : Fin PEG_SLOTS → Nat) (st : ScoreState)
    (i : Fin PEG_SLOTS) : ScoreState :=
  if st.black_matched i then st
  else
    match (List.finRange PEG_SLOTS).find?
        (fun j => !(st.black_matched j || st.white_matched j) &&
          (pegs i == hidden j)) with
    | some j =>
      { st with
        white_keys := st.white_keys + 1
        white_matched := Function.update st.white_matched j true }
    | none => st

/-- The two scoring passes of `Mastermind::guess` run in order from the
initial state. -/
def runScore (pegs hidden : Fin PEG_SLOTS → Nat) : ScoreState :=
  (List.finRange PEG_SLOTS).foldl (whiteStep pegs hidden)
    ((List.finRange PEG_SLOTS).foldl (blackStep pegs hidden) initScore)

/-- Decrement of a `uint32_t` value (wrapping at zero), as in
`--m_tries_allowed`. -/
def u32Pred (n : Nat) : Nat := (n + (U32 - 1)) % U32

/-- Mastermind::guess.  Returns the win flag together with the two output
parameters `black_keys` and `white_keys`, and the updated engine state
(the decremented tries counter). -/
def Mastermind.guess (m : Mastermind) (pegs : Fin PEG_SLOTS → Nat) :
    (Bool × Nat × Nat) × Mastermind :=
  let st := runScore pegs m.m_hidden_pegs
  ((st.black_keys == PEG_SLOTS, st.black_keys, st.white_keys),
   { m with m_tries_allowed := u32Pred m.m_tries_allowed })

/-- Mastermind::turnsLeft (lines 91-93). -/
def Mastermind.turnsLeft (m : Mastermind) : Nat := m.m_tries_allowed

/-- Mastermind::peer (lines 99-103): copies the hidden pegs out. -/
def Mastermind.peer (m : Mastermind) : Fin PEG_SLOTS → Nat :=
  fun i => m.m_hidden_pegs i

/-- The list of peg values of a code, in position order. -/
def pegList (f : Fin PEG_SLOTS → Nat) : List Nat :=
  (List.finRange PEG_SLOTS).map f

/-- Greedy colour matching on value lists: each guess value in turn
consumes the first remaining equal secret value, if any. -/
def greedyWhite : List Nat → List Nat → Nat
  | [], _ => 0
  | a :: l, pool =>
    if a ∈ pool then greedyWhite l (pool.erase a) + 1 else greedyWhite l pool

/-- Pass 2 as worded by the specification: for each unconsumed guess
position `i` (in increasing order), scan the unconsumed secret positions
`j` in increasing order and, on the first value match
`guess[i] == secret[j]`, count one white key and consume secret position
`j`.  The unconsumed secret positions are carried as an ordered list. -/
def specPass2 (g s : Fin PEG_SLOTS → Nat) :
    List (Fin PEG_SLOTS) → List (Fin PEG_SLOTS) → Nat
  | [], _ => 0
  | i :: is, pool =>
    match pool.find? (fun j => g i == s j) with
    | some j => specPass2 g s is (pool.erase j) + 1
    | none => specPass2 g s is pool

/-- White keys as worded by the specification: after the exact matches
are consumed on both sides, run the greedy pass 2 over the remaining
positions in increasing order. -/
def specWhiteKeys (g s : Fin PEG_SLOTS → Nat) : Nat :=
  specPass2 g s
    ((List.finRange PEG_SLOTS).filter (fun i => !(g i == s i)))
    ((List.finRange PEG_SLOTS).filter (fun j => !(g j == s j)))

/-! Pass-1 characterisation: after the black-key loop, `black_matched i`
holds exactly at the exact-match positions, `black_keys` is the number of
exact matches, and the white fields are untouched. -/

lemma blackFold_white_fields (pegs hidden : Fin PEG_SLOTS → Nat)
    (js : List (Fin PEG_SLOTS)) (st : ScoreState) :
    (js.foldl (blackStep pegs hidden) st).white_matched = st.white_matched ∧
    (js.foldl (blackStep pegs hidden) st).white_keys = st.white_keys := by
  induction js generalizing st with
  | nil => exact ⟨rfl, rfl⟩
  | cons i js ih =>
    simp only [List.foldl_cons]
    rcases ih (blackStep pegs hidden st i) with ⟨h1, h2⟩
    refine ⟨h1.trans ?_, h2.trans ?_⟩ <;> (unfold blackStep; split <;> rfl)

lemma blackFold_black_matched (pegs hidden : Fin PEG_SLOTS → Nat)
    (js : List (Fin PEG_SLOTS)) (st : ScoreState) (j : Fin PEG_SLOTS) :
    (js.foldl (blackStep pegs hidden) st).black_matched j
      = (st.black_matched j || (decide (j ∈ js) && (pegs j == hidden j))) := by
  induction js generalizing st with
  | nil => simp
  | cons i js ih =>
    simp only [List.foldl_cons]
    rw [ih]
    unfold blackStep
    by_cases hm : (pegs i == hidden i)
    · rw [if_pos hm]
      by_cases hij : j = i
      · subst hij
        simp [Function.update_same, hm]
      · simp [Function.update_noteq hij, hij]
    · rw [if_neg hm]
      by_cases hij : j = i
      · subst hij
        simp only [Bool.not_eq_true] at hm
        simp [hm]
      · simp [hij]

lemma blackFold_black_keys (pegs hidden : Fin PEG_SLOTS → Nat)
    (js : List (Fin PEG_SLOTS)) (st : ScoreState) :
    (js.foldl (blackStep pegs hidden) st).black_keys
      = st.black_keys + (js.filter (fun i => pegs i == hidden i)).length := by
  induction js generalizing st with
  | nil => simp
  | cons i js ih =>
    simp only [List.foldl_cons, List.filter_cons]
    rw [ih]
    by_cases hm : (pegs i == hidden i) <;> simp [blackStep, hm] <;> omega

lemma pass1_black_matched (pegs hidden : Fin PEG_SLOTS → Nat) (j : Fin PEG_SLOTS) :
    ((List.finRange PEG_SLOTS).foldl (blackStep pegs hidden) initScore).black_matched j
      = (pegs j == hidden j) := by
  rw [blackFold_black_matched]
  simp [initScore, List.mem_finRange]

lemma pass1_black_keys (pegs hidden : Fin PEG_SLOTS → Nat) :
    ((List.finRange PEG_SLOTS).foldl (blackStep pegs hidden) initScore).black_keys
      = ((List.finRange PEG_SLOTS).filter (fun i => pegs i == hidden i)).length := by
  rw [blackFold_black_keys]
  simp [initScore]

lemma whiteFold_black_fields (pegs hidden : Fin PEG_SLOTS → Nat)
    (js : List (Fin PEG_SLOTS)) (st : ScoreState) :
    (js.foldl (whiteStep pegs hidden) st).black_matched = st.black_matched ∧
    (js.foldl (whiteStep pegs hidden) st).black_keys = st.black_keys := by
  induction js generalizing st with
  | nil => exact ⟨rfl, rfl⟩
  | cons i js ih =>
    simp only [List.foldl_cons]
    rcases ih (whiteStep pegs hidden st i) with ⟨h1, h2⟩
    constructor
    · refine h1.trans ?_
      unfold whiteStep
      split
      · rfl
      · split <;> rfl
    · refine h2.trans ?_
      unfold whiteStep
      split
      · rfl
      · split <;> rfl

lemma runScore_black_keys (pegs hidden : Fin PEG_SLOTS → Nat) :
    (runScore pegs hidden).black_keys
      = ((List.finRange PEG_SLOTS).filter (fun i => pegs i == hidden i)).length := by
  unfold runScore
  rw [(whiteFold_black_fields pegs hidden _ _).2, pass1_black_keys]

/-! Unfolding equations for the engine operations, stated once and used by
rewriting (the raw projections of `guess` applied to a symbolic state are
kept out of `simp`'s reach). -/

lemma turnsLeft_def (m : Mastermind) : m.turnsLeft = m.m_tries_allowed := rfl

lemma guess_fst (m : Mastermind) (pegs : Fin PEG_SLOTS → Nat) :
    (m.guess pegs).1
      = ((runScore pegs m.m_hidden_pegs).black_keys == PEG_SLOTS,
         (runScore pegs m.m_hidden_pegs).black_keys,
         (runScore pegs m.m_hidden_pegs).white_keys) := rfl

lemma guess_snd (m : Mastermind) (pegs : Fin PEG_SLOTS → Nat) :
    (m.guess pegs).2
      = Mastermind.mk m.m_hidden_pegs m.m_peg_colors (u32Pred m.m_tries_allowed) :=
  rfl

lemma guess_snd_tries (m : Mastermind) (pegs : Fin PEG_SLOTS → Nat) :
    (m.guess pegs).2.m_tries_allowed = u32Pred m.m_tries_allowed := rfl

/-- C5: every call to `guess` decrements the value returned by
`turnsLeft()` by exactly one in 32-bit arithmetic, regardless of the
guess's outcome; when the counter is positive this is an ordinary
decrement by one. -/
theorem guess_decrements_turnsLeft (m : Mastermind) (pegs : Fin PEG_SLOTS → Nat)
    (h : m.m_tries_allowed < U32) :
    ((m.guess pegs).2.turnsLeft + 1) % U32 = m.turnsLeft ∧
    (0 < m.turnsLeft → (m.guess pegs).2.turnsLeft = m.turnsLeft - 1) := by
  have hU : U32 = 4294967296 := by norm_num [U32]
  rw [turnsLeft_def, turnsLeft_def, guess_snd_tries]
  unfold u32Pred
  rw [hU]
  rw [hU] at h
  exact ⟨by omega, fun _ => by omega⟩

/-- Witness for C5 at a concrete engine state. -/
theorem guess_decrements_turnsLeft_witness :
    ((((Mastermind.mk ![1,2,3,4] 8 10).guess ![0,0,0,0]).2.turnsLeft + 1) % U32
        = (Mastermind.mk ![1,2,3,4] 8 10).turnsLeft) ∧
    (0 < (Mastermind.mk ![1,2,3,4] 8 10).turnsLeft →
      ((Mastermind.mk ![1,2,3,4] 8 10).guess ![0,0,0,0]).2.turnsLeft
        = (Mastermind.mk ![1,2,3,4] 8 10).turnsLeft - 1) :=
  guess_decrements_turnsLeft (Mastermind.mk ![1,2,3,4] 8 10) ![0,0,0,0]
    (by norm_num [U32])

/-- C10: calling `guess` when `turnsLeft() == 0` wraps the unsigned
32-bit counter around, so `turnsLeft()` afterwards returns 4294967295. -/
theorem guess_at_zero_turns_wraps (m : Mastermind) (pegs : Fin PEG_SLOTS → Nat)
    (h : m.turnsLeft = 0) :
    (m.guess pegs).2.turnsLeft = 4294967295 := by
  have ht : m.m_tries_allowed = 0 := h
  rw [turnsLeft_def, guess_snd_tries, ht]
  norm_num [u32Pred, U32]

/-- Witness for C10 at a concrete engine state with zero turns left. -/
theorem guess_at_zero_turns_wraps_witness :
    ((Mastermind.mk ![0,1,2,3] 8 0).guess ![0,0,0,0]).2.turnsLeft = 4294967295 :=
  guess_at_zero_turns_wraps (Mastermind.mk ![0,1,2,3] 8 0) ![0,0,0,0] rfl

/-- C7: `guess` leaves the hidden pegs and the colour count unchanged
(it changes only the tries counter), and `peer` returns exactly the
hidden pegs. -/
theorem guess_preserves_secret (m : Mastermind) (pegs : Fin PEG_SLOTS → Nat) :
    ((m.guess pegs).2.m_hidden_pegs = m.m_hidden_pegs ∧
     (m.guess pegs).2.m_peg_colors = m.m_peg_colors) ∧
    m.peer = m.m_hidden_pegs := by
  rw [guess_snd]
  exact ⟨⟨rfl, rfl⟩, rfl⟩

/-- C6: on secret `[1,1,2,2]` and guess `[1,2,1,2]` the engine reports
two black keys and two white keys (and no win). -/
theorem score_secret_1122_guess_1212 :
    ((Mastermind.mk ![1,1,2,2] 8 10).guess ![1,2,1,2]).1 = (false, 2, 2) := by
  rw [guess_fst]
  decide

/-! List-level helper lemmas for relating the mask-based inner loop of the
source to erase-based greedy matching on value lists. -/

lemma filter_length_eq_iff {α : Type} (p : α → Bool) (l : List α) :
    (l.filter p).length = l.length ↔ ∀ a ∈ l, p a := by
  constructor
  · intro h
    exact List.filter_eq_self.mp ((List.filter_sublist l).eq_of_length h)
  · intro h
    rw [List.filter_eq_self.mpr h]

lemma find?_filter_eq {α : Type} (l : List α) (q p : α → Bool) :
    (l.filter q).find? p = l.find? (fun a => q a && p a) := by
  induction l with
  | nil => rfl
  | cons a l ih =>
    by_cases hq : q a
    · by_cases hp : p a
      · simp [List.filter_cons, hq, hp]
      · simp [List.filter_cons, hq, hp, ih]
    · simp [List.filter_cons, hq, ih]

lemma find?_none_not_mem_map {n : Nat} (f : Fin n → Nat) (v : Nat)
    (js : List (Fin n)) (h : js.find? (fun j => v == f j) = none) :
    v ∉ js.map f := by
  rw [List.find?_eq_none] at h
  intro hv
  rcases List.mem_map.mp hv with ⟨j, hj, hfj⟩
  exact h j hj (by rw [hfj]; exact beq_self_eq_true v)

lemma find?_first_map_erase {n : Nat} (f : Fin n → Nat) (v : Nat) :
    ∀ (js : List (Fin n)), js.Nodup → ∀ j₀,
      js.find? (fun j => v == f j) = some j₀ →
      f j₀ = v ∧ v ∈ js.map f ∧ (js.erase j₀).map f = (js.map f).erase v := by
  intro js
  induction js with
  | nil => intro _ j₀ h; simp at h
  | cons a l ih =>
    intro hnd j₀ hfind
    rcases List.nodup_cons.mp hnd with ⟨hal, hndl⟩
    by_cases hp : (v == f a)
    · rw [@List.find?_cons_of_pos _ (fun j => v == f j) a l hp] at hfind
      have hj₀ : j₀ = a := (Option.some.injEq _ _).mp hfind.symm
      subst hj₀
      have hfv : f j₀ = v := (beq_iff_eq.mp hp).symm
      refine ⟨hfv, by rw [List.map_cons, hfv]; exact List.mem_cons_self _ _, ?_⟩
      rw [List.erase_cons_head, List.map_cons, hfv, List.erase_cons_head]
    · rw [@List.find?_cons_of_neg _ (fun j => v == f j) a l hp] at hfind
      rcases ih hndl j₀ hfind with ⟨h1, h2, h3⟩
      have hja : j₀ ≠ a := fun he =>
        hal (he ▸ List.mem_of_find?_eq_some hfind)
      have hva : f a ≠ v := fun he => hp (by rw [he]; exact beq_self_eq_true v)
      refine ⟨h1, by rw [List.map_cons]; exact List.mem_cons_of_mem _ h2, ?_⟩
      rw [List.erase_cons_tail (show ¬(a == j₀) = true by simpa using hja.symm),
        List.map_cons, List.map_cons,
        List.erase_cons_tail (show ¬(f a == v) = true by simpa using hva), h3]

lemma filter_and_ne_eq_erase {n : Nat} (p : Fin n → Bool) (j₀ : Fin n) :
    ∀ (l : List (Fin n)), l.Nodup →
      l.filter (fun j => p j && !(j == j₀)) = (l.filter p).erase j₀ := by
  intro l
  induction l with
  | nil => intro _; rfl
  | cons a l ih =>
    intro hnd
    rcases List.nodup_cons.mp hnd with ⟨hal, hndl⟩
    by_cases ha : a = j₀
    · subst ha
      have hl : l.filter (fun j => p j && !(j == a)) = l.filter p :=
        List.filter_congr fun j hj => by
          have hne : j ≠ a := fun he => hal (he ▸ hj)
          simp [hne]
      rw [List.filter_cons, List.filter_cons, if_neg (by simp), hl]
      by_cases hpa : p a
      · rw [if_pos hpa, List.erase_cons_head]
      · rw [if_neg hpa,
          List.erase_of_not_mem fun hmem => hal (List.mem_of_mem_filter hmem)]
    · have hcond : (p a && !(a == j₀)) = p a := by simp [ha]
      rw [List.filter_cons, List.filter_cons, hcond]
      by_cases hpa : p a
      · rw [if_pos hpa, if_pos hpa,
          List.erase_cons_tail (show ¬(a == j₀) = true by simpa using ha),
          ih hndl]
      · rw [if_neg hpa, if_neg hpa, ih hndl]

/-! The greedy first-match scan computes the multiset intersection
cardinality, and both the source's mask-based pass 2 and the
specification's ordered-scan pass 2 reduce to `greedyWhite`. -/

lemma greedyWhite_eq_inter_card (l : List Nat) :
    ∀ pool : List Nat,
      greedyWhite l pool
        = Multiset.card ((l : Multiset Nat) ∩ (pool : Multiset Nat)) := by
  induction l with
  | nil => intro pool; simp [greedyWhite]
  | cons a l ih =>
    intro pool
    rw [show ((a :: l : List Nat) : Multiset Nat) = a ::ₘ (l : Multiset Nat) from
      (Multiset.cons_coe a l).symm]
    by_cases h : a ∈ pool
    · rw [greedyWhite, if_pos h, ih,
        Multiset.cons_inter_of_pos _ (Multiset.mem_coe.mpr h),
        Multiset.coe_erase, Multiset.card_cons]
    · rw [greedyWhite, if_neg h, ih,
        Multiset.cons_inter_of_neg _ (fun hm => h (Multiset.mem_coe.mp hm))]

lemma specPass2_eq_greedy (g s : Fin PEG_SLOTS → Nat) :
    ∀ (is pool : List (Fin PEG_SLOTS)), pool.Nodup →
      specPass2 g s is pool = greedyWhite (is.map g) (pool.map s) := by
  intro is
  induction is with
  | nil => intro pool _; simp [specPass2, greedyWhite]
  | cons i is ih =>
    intro pool hnd
    cases hfind : pool.find? (fun j => g i == s j) with
    | some j₀ =>
      rcases find?_first_map_erase s (g i) pool hnd j₀ hfind with ⟨_, h2, h3⟩
      rw [specPass2, hfind]
      dsimp only
      rw [List.map_cons, greedyWhite, if_pos h2,
        ih (pool.erase j₀) (hnd.erase j₀), h3]
    | none =>
      have hnm := find?_none_not_mem_map s (g i) pool hfind
      rw [specPass2, hfind]
      dsimp only
      rw [List.map_cons, greedyWhite, if_neg hnm, ih pool hnd]

/-- The unconsumed-secret-position mask of a scoring state: neither
black- nor white-matched yet. -/
def unconsumedMask (st : ScoreState) : Fin PEG_SLOTS → Bool :=
  fun j => !(st.black_matched j || st.white_matched j)

lemma whiteFold_white_keys (pegs hidden : Fin PEG_SLOTS → Nat) :
    ∀ (is : List (Fin PEG_SLOTS)) (st : ScoreState),
      (is.foldl (whiteStep pegs hidden) st).white_keys
        = st.white_keys +
          greedyWhite ((is.filter (fun i => !st.black_matched i)).map pegs)
            (((List.finRange PEG_SLOTS).filter (unconsumedMask st)).map hidden) := by
  intro is
  induction is with
  | nil => intro st; simp [greedyWhite]
  | cons i is ih =>
    intro st
    rw [List.foldl_cons]
    by_cases hbm : st.black_matched i
    · have hstep : whiteStep pegs hidden st i = st := by
        unfold whiteStep
        rw [if_pos hbm]
      have hfil : (i :: is).filter (fun i => !st.black_matched i)
          = is.filter (fun i => !st.black_matched i) := by
        rw [List.filter_cons]
        simp [hbm]
      rw [hstep, hfil]
      exact ih st
    · have hbmf : st.black_matched i = false := by simpa using hbm
      have hkeep : (i :: is).filter (fun i => !st.black_matched i)
          = i :: is.filter (fun i => !st.black_matched i) := by
        rw [List.filter_cons]
        simp [hbmf]
      have hfq : (List.finRange PEG_SLOTS).find?
            (fun j => !(st.black_matched j || st.white_matched j) &&
              (pegs i == hidden j))
          = ((List.finRange PEG_SLOTS).filter (unconsumedMask st)).find?
              (fun j => pegs i == hidden j) := by
        rw [find?_filter_eq]
        rfl
      rw [hkeep, List.map_cons]
      cases hf : ((List.finRange PEG_SLOTS).filter (unconsumedMask st)).find?
          (fun j => pegs i == hidden j) with
      | none =>
        have hstep : whiteStep pegs hidden st i = st := by
          unfold whiteStep
          rw [if_neg hbm, hfq, hf]
        have hnm := find?_none_not_mem_map hidden (pegs i) _ hf
        rw [hstep, greedyWhite, if_neg hnm]
        exact ih st
      | some j₀ =>
        have hndpool : ((List.finRange PEG_SLOTS).filter (unconsumedMask st)).Nodup :=
          (List.nodup_finRange _).filter _
        rcases find?_first_map_erase hidden (pegs i)
            ((List.finRange PEG_SLOTS).filter (unconsumedMask st)) hndpool j₀ hf
          with ⟨h1, h2, h3⟩
        have hstep : whiteStep pegs hidden st i
            = { st with
                white_keys := st.white_keys + 1
                white_matched := Function.update st.white_matched j₀ true } := by
          unfold whiteStep
          rw [if_neg hbm, hfq, hf]
        have hpoolrec : (List.finRange PEG_SLOTS).filter (unconsumedMask
              { st with
                white_keys := st.white_keys + 1
                white_matched := Function.update st.white_matched j₀ true })
            = ((List.finRange PEG_SLOTS).filter (unconsumedMask st)).erase j₀ := by
          have hcong : (List.finRange PEG_SLOTS).filter (unconsumedMask
                { st with
                  white_keys := st.white_keys + 1
                  white_matched := Function.update st.white_matched j₀ true })
              = (List.finRange PEG_SLOTS).filter
                  (fun j => unconsumedMask st j && !(j == j₀)) :=
            List.filter_congr fun j _ => by
              by_cases hj : j = j₀
              · subst hj
                simp [unconsumedMask, Function.update_same]
              · simp [unconsumedMask, Function.update_noteq hj, hj]
          rw [hcong,
            filter_and_ne_eq_erase (unconsumedMask st) j₀ _ (List.nodup_finRange _)]
        have hw' : (whiteStep pegs hidden st i).white_keys = st.white_keys + 1 := by
          rw [hstep]
        have hbm' : (whiteStep pegs hidden st i).black_matched
            = st.black_matched := by
          rw [hstep]
        have hpool' : (List.finRange PEG_SLOTS).filter
              (unconsumedMask (whiteStep pegs hidden st i))
            = ((List.finRange PEG_SLOTS).filter (unconsumedMask st)).erase j₀ := by
          rw [hstep]
          exact hpoolrec
        rw [ih (whiteStep pegs hidden st i), hw', hbm', hpool', h3,
          greedyWhite, if_pos h2]
        omega

lemma runScore_white_keys (pegs hidden : Fin PEG_SLOTS → Nat) :
    (runScore pegs hidden).white_keys
      = greedyWhite
          (((List.finRange PEG_SLOTS).filter
              (fun i => !(pegs i == hidden i))).map pegs)
          (((List.finRange PEG_SLOTS).filter
              (fun j => !(pegs j == hidden j))).map hidden) := by
  unfold runScore
  rw [whiteFold_white_keys]
  have hwk : ((List.finRange PEG_SLOTS).foldl (blackStep pegs hidden)
      initScore).white_keys = 0 :=
    (blackFold_white_fields pegs hidden _ _).2
  have hwm : ((List.finRange PEG_SLOTS).foldl (blackStep pegs hidden)
      initScore).white_matched = initScore.white_matched :=
    (blackFold_white_fields pegs hidden _ _).1
  have hfg : (List.finRange PEG_SLOTS).filter
        (fun i => !((List.finRange PEG_SLOTS).foldl (blackStep pegs hidden)
          initScore).black_matched i)
      = (List.finRange PEG_SLOTS).filter (fun i => !(pegs i == hidden i)) :=
    List.filter_congr fun j _ => by rw [pass1_black_matched]
  have hfp : (List.finRange PEG_SLOTS).filter
        (unconsumedMask ((List.finRange PEG_SLOTS).foldl (blackStep pegs hidden)
          initScore))
      = (List.finRange PEG_SLOTS).filter (fun j => !(pegs j == hidden j)) :=
    List.filter_congr fun j _ => by
      rw [show unconsumedMask ((List.finRange PEG_SLOTS).foldl
            (blackStep pegs hidden) initScore) j
          = !(((List.finRange PEG_SLOTS).foldl (blackStep pegs hidden)
              initScore).black_matched j ||
            ((List.finRange PEG_SLOTS).foldl (blackStep pegs hidden)
              initScore).white_matched j) from rfl,
        pass1_black_matched, hwm]
      simp [initScore]
  rw [hwk, hfg, hfp]
  simp

/-! Splitting the full peg multisets along the exact-match positions and
counting the colour-only matches by multiset intersection. -/

lemma pegList_split (f : Fin PEG_SLOTS → Nat) (p : Fin PEG_SLOTS → Bool) :
    (pegList f : Multiset Nat)
      = ↑(((List.finRange PEG_SLOTS).filter p).map f)
        + ↑(((List.finRange PEG_SLOTS).filter (fun i => !p i)).map f) := by
  rw [Multiset.coe_add, ← List.map_append, Multiset.coe_eq_coe]
  exact ((List.filter_append_perm p _).map f).symm

lemma matched_map_eq (pegs hidden : Fin PEG_SLOTS → Nat) :
    ((List.finRange PEG_SLOTS).filter (fun i => pegs i == hidden i)).map pegs
      = ((List.finRange PEG_SLOTS).filter (fun i => pegs i == hidden i)).map
          hidden :=
  List.map_congr_left fun j hj =>
    beq_iff_eq.mp (List.mem_filter.mp hj).2

lemma add_inter_add_left (M A B : Multiset Nat) :
    (M + A) ∩ (M + B) = M + A ∩ B := by
  refine Multiset.ext.mpr fun v => ?_
  simp only [Multiset.count_inter, Multiset.count_add]
  omega

lemma black_add_white (pegs hidden : Fin PEG_SLOTS → Nat) :
    (runScore pegs hidden).black_keys + (runScore pegs hidden).white_keys
      = Multiset.card
          ((pegList pegs : Multiset Nat) ∩ (pegList hidden : Multiset Nat)) := by
  rw [runScore_black_keys, runScore_white_keys, greedyWhite_eq_inter_card,
    pegList_split pegs (fun i => pegs i == hidden i),
    pegList_split hidden (fun i => pegs i == hidden i),
    matched_map_eq, add_inter_add_left, Multiset.card_add, Multiset.coe_card,
    List.length_map]

lemma inter_card_eq_sum_min (G S : List Nat) :
    Multiset.card ((G : Multiset Nat) ∩ (S : Multiset Nat))
      = ∑ v ∈ G.toFinset ∪ S.toFinset, min (G.count v) (S.count v) := by
  have hsub : ((G : Multiset Nat) ∩ (S : Multiset Nat)).toFinset
      ⊆ G.toFinset ∪ S.toFinset := by
    intro v hv
    rw [Multiset.mem_toFinset, Multiset.mem_inter] at hv
    rw [Finset.mem_union, List.mem_toFinset]
    exact Or.inl (Multiset.mem_coe.mp hv.1)
  calc Multiset.card ((G : Multiset Nat) ∩ (S : Multiset Nat))
      = ∑ v ∈ ((G : Multiset Nat) ∩ (S : Multiset Nat)).toFinset,
          ((G : Multiset Nat) ∩ (S : Multiset Nat)).count v :=
        (Multiset.toFinset_sum_count_eq _).symm
    _ = ∑ v ∈ G.toFinset ∪ S.toFinset,
          ((G : Multiset Nat) ∩ (S : Multiset Nat)).count v :=
        Finset.sum_subset hsub (fun v _ hv =>
          Multiset.count_eq_zero_of_not_mem fun hmem =>
            hv (Multiset.mem_toFinset.mpr hmem))
    _ = ∑ v ∈ G.toFinset ∪ S.toFinset, min (G.count v) (S.count v) :=
        Finset.sum_congr rfl fun v _ => by
          rw [Multiset.count_inter, Multiset.coe_count, Multiset.coe_count]

/-- C1: the guess operation returns true (win) iff it reports four black
keys, which holds iff the guess equals the secret elementwise. -/
theorem guess_win_iff (m : Mastermind) (pegs : Fin PEG_SLOTS → Nat) :
    ((m.guess pegs).1.1 = true ↔ (m.guess pegs).1.2.1 = 4) ∧
    ((m.guess pegs).1.2.1 = 4 ↔ ∀ i, pegs i = m.m_hidden_pegs i) := by
  have hwin : (m.guess pegs).1.1
      = ((runScore pegs m.m_hidden_pegs).black_keys == PEG_SLOTS) := rfl
  have hb : (m.guess pegs).1.2.1
      = (runScore pegs m.m_hidden_pegs).black_keys := rfl
  rw [hwin, hb]
  constructor
  · rw [beq_iff_eq]
  · rw [runScore_black_keys]
    have h4 : (4 : Nat) = (List.finRange PEG_SLOTS).length := by simp
    rw [h4, filter_length_eq_iff]
    constructor
    · intro h i
      exact beq_iff_eq.mp (h i (List.mem_finRange i))
    · intro h i _
      exact beq_iff_eq.mpr (h i)

/-- C2: the white keys reported by the guess operation are computed by
the greedy pass worded in the specification: after exact matches are
consumed, each unconsumed guess position scans unconsumed secret
positions in increasing order and consumes the first value match. -/
theorem whiteKeys_eq_specGreedy (m : Mastermind) (pegs : Fin PEG_SLOTS → Nat) :
    (m.guess pegs).1.2.2 = specWhiteKeys pegs m.m_hidden_pegs := by
  have hw : (m.guess pegs).1.2.2
      = (runScore pegs m.m_hidden_pegs).white_keys := rfl
  rw [hw, runScore_white_keys, specWhiteKeys,
    specPass2_eq_greedy pegs m.m_hidden_pegs _ _
      ((List.nodup_finRange _).filter _)]

/-- C3: for secret and guess values in range, the reported black and
white keys sum to at most 4. -/
theorem black_add_white_le_four (m : Mastermind) (pegs : Fin PEG_SLOTS → Nat)
    (hsec : ∀ j, m.m_hidden_pegs j < m.m_peg_colors)
    (hpegs : ∀ i, pegs i < m.m_peg_colors) :
    (m.guess pegs).1.2.1 + (m.guess pegs).1.2.2 ≤ 4 := by
  have hb : (m.guess pegs).1.2.1
      = (runScore pegs m.m_hidden_pegs).black_keys := rfl
  have hw : (m.guess pegs).1.2.2
      = (runScore pegs m.m_hidden_pegs).white_keys := rfl
  rw [hb, hw, black_add_white]
  have hle : Multiset.card
        ((pegList pegs : Multiset Nat) ∩ ↑(pegList m.m_hidden_pegs))
      ≤ Multiset.card (↑(pegList m.m_hidden_pegs) : Multiset Nat) :=
    Multiset.card_le_card (Multiset.inter_le_right _ _)
  have hcard : Multiset.card (↑(pegList m.m_hidden_pegs) : Multiset Nat) = 4 := by
    rw [Multiset.coe_card]
    simp [pegList]
  omega

/-- Witness for C3 at a concrete in-range secret and guess. -/
theorem black_add_white_le_four_witness :
    ((Mastermind.mk ![0,1,2,3] 8 10).guess ![3,2,1,0]).1.2.1
      + ((Mastermind.mk ![0,1,2,3] 8 10).guess ![3,2,1,0]).1.2.2 ≤ 4 :=
  black_add_white_le_four (Mastermind.mk ![0,1,2,3] 8 10) ![3,2,1,0]
    (by decide) (by decide)

/-- C4: scoring is symmetric: swapping which sequence is guess and which
is secret yields the same (blackKeys, whiteKeys) pair. -/
theorem score_symmetric (A B : Fin PEG_SLOTS → Nat) (c₁ t₁ c₂ t₂ : Nat) :
    ((Mastermind.mk B c₁ t₁).guess A).1.2
      = ((Mastermind.mk A c₂ t₂).guess B).1.2 := by
  have h1 : ((Mastermind.mk B c₁ t₁).guess A).1.2
      = ((runScore A B).black_keys, (runScore A B).white_keys) := rfl
  have h2 : ((Mastermind.mk A c₂ t₂).guess B).1.2
      = ((runScore B A).black_keys, (runScore B A).white_keys) := rfl
  rw [h1, h2]
  have hb : (runScore A B).black_keys = (runScore B A).black_keys := by
    rw [runScore_black_keys, runScore_black_keys]
    refine congrArg List.length (List.filter_congr fun i _ => ?_)
    by_cases h : A i = B i
    · simp [h]
    · have h' : ¬(B i = A i) := fun he => h he.symm
      simp [h, h']
  have hsum1 := black_add_white A B
  have hsum2 := black_add_white B A
  have hint : Multiset.card
        ((pegList A : Multiset Nat) ∩ (pegList B : Multiset Nat))
      = Multiset.card
          ((pegList B : Multiset Nat) ∩ (pegList A : Multiset Nat)) := by
    rw [Multiset.inter_comm]
  have hwhite : (runScore A B).white_keys = (runScore B A).white_keys := by
    omega
  rw [hb, hwhite]

/-- C8: with an in-range secret, an out-of-range guess peg equals no
secret peg, and the keys reported by guess (a total function, raising no
error) are bounded by the number of in-range guess positions. -/
theorem out_of_range_guess_never_matches (m : Mastermind)
    (pegs : Fin PEG_SLOTS → Nat)
    (hsec : ∀ j, m.m_hidden_pegs j < m.m_peg_colors) :
    (∀ i, m.m_peg_colors ≤ pegs i → ∀ j, pegs i ≠ m.m_hidden_pegs j) ∧
    (m.guess pegs).1.2.1 + (m.guess pegs).1.2.2
      ≤ ((List.finRange PEG_SLOTS).filter
          (fun i => pegs i < m.m_peg_colors)).length := by
  constructor
  · intro i hi j he
    have hs := hsec j
    omega
  · have hb : (m.guess pegs).1.2.1
        = (runScore pegs m.m_hidden_pegs).black_keys := rfl
    have hw : (m.guess pegs).1.2.2
        = (runScore pegs m.m_hidden_pegs).white_keys := rfl
    rw [hb, hw, black_add_white]
    have hmem : ∀ v ∈ ((pegList pegs : Multiset Nat)
        ∩ ↑(pegList m.m_hidden_pegs)), v < m.m_peg_colors := by
      intro v hv
      have hvS : v ∈ pegList m.m_hidden_pegs :=
        Multiset.mem_coe.mp (Multiset.mem_inter.mp hv).2
      rcases List.mem_map.mp hvS with ⟨j, _, hj⟩
      exact hj ▸ hsec j
    have hle1 : ((pegList pegs : Multiset Nat) ∩ ↑(pegList m.m_hidden_pegs))
        ≤ Multiset.filter (fun v => v < m.m_peg_colors)
            (pegList pegs : Multiset Nat) :=
      Multiset.le_filter.mpr ⟨Multiset.inter_le_left _ _, hmem⟩
    have hle2 := Multiset.card_le_card hle1
    have hcf : Multiset.card (Multiset.filter (fun v => v < m.m_peg_colors)
          (pegList pegs : Multiset Nat))
        = ((List.finRange PEG_SLOTS).filter
            (fun i => pegs i < m.m_peg_colors)).length := by
      rw [Multiset.filter_coe, Multiset.coe_card]
      unfold pegList
      rw [List.filter_map, List.length_map]
      rfl
    omega

/-- Witness for C8 at a concrete state with out-of-range guess pegs. -/
theorem out_of_range_guess_never_matches_witness :
    (∀ i, (Mastermind.mk ![0,1,2,3] 8 10).m_peg_colors
        ≤ (![9,0,9,1] : Fin PEG_SLOTS → Nat) i →
      ∀ j, (![9,0,9,1] : Fin PEG_SLOTS → Nat) i
        ≠ (Mastermind.mk ![0,1,2,3] 8 10).m_hidden_pegs j) ∧
    ((Mastermind.mk ![0,1,2,3] 8 10).guess ![9,0,9,1]).1.2.1
      + ((Mastermind.mk ![0,1,2,3] 8 10).guess ![9,0,9,1]).1.2.2
      ≤ ((List.finRange PEG_SLOTS).filter
          (fun i => (![9,0,9,1] : Fin PEG_SLOTS → Nat) i
            < (Mastermind.mk ![0,1,2,3] 8 10).m_peg_colors)).length :=
  out_of_range_guess_never_matches (Mastermind.mk ![0,1,2,3] 8 10) ![9,0,9,1]
    (by decide)

/-- C9: the greedy scoring is equivalent to the multiset reference
definition: whiteKeys equals the sum over colour values of the minimum
of the occurrence counts in guess and secret, minus blackKeys. -/
theorem whiteKeys_eq_multiset_formula (m : Mastermind)
    (pegs : Fin PEG_SLOTS → Nat) :
    (m.guess pegs).1.2.2
      = (∑ v ∈ (pegList pegs).toFinset ∪ (pegList m.m_hidden_pegs).toFinset,
          min ((pegList pegs).count v) ((pegList m.m_hidden_pegs).count v))
        - (m.guess pegs).1.2.1 := by
  have hb : (m.guess pegs).1.2.1
      = (runScore pegs m.m_hidden_pegs).black_keys := rfl
  have hw : (m.guess pegs).1.2.2
      = (runScore pegs m.m_hidden_pegs).white_keys := rfl
  rw [hb, hw]
  have h1 := black_add_white pegs m.m_hidden_pegs
  have h2 := inter_card_eq_sum_min (pegList pegs) (pegList m.m_hidden_pegs)
  omega
